import Mathlib

/-!
Verification development for the `match` reverse-image-search service
(`src/server.py`): a shallow embedding of the index-manipulating core of the
Flask handlers, together with theorems about the behaviour the specification
describes.

The Similarity Index (Elasticsearch) and the Signature Engine (image_match)
are external capabilities; they are embedded as explicit state
(a list of records plus a fresh-id counter) and as an abstract signature
function, following the capability contract the spec gives them
(insert, delete-by-id, exact-field lookup, offset/limit page, count).
Distances and scores are modelled as rationals.
-/

/-- One record of the Similarity Index: (id, path, signature, metadata).
The id is assigned by the index on insert; signature and metadata are opaque
payloads. -/
structure Record where
  id : Nat
  path : String
  signature : Nat
  metadata : String
deriving Repr, DecidableEq

/-- The state of the Similarity Index: the stored records (in insertion
order, which is the index's native listing order) and the next fresh id the
index will assign. -/
structure ES where
  records : List Record
  nextId : Nat
deriving Repr, DecidableEq

/-- Index effects, recorded in the order a handler issues them, used to state
ordering properties of the handlers. `search` is the by-path id query,
`insert` the index insert, `delete` a delete-by-id. -/
inductive Effect where
  | search (path : String)
  | insert (id : Nat) (path : String) (signature : Nat) (metadata : String)
  | delete (id : Nat)
deriving Repr, DecidableEq

/-- `ids_with_path` from server.py: queries the index for the ids of all
records whose `path` field equals the given path and returns them as a list.
The Elasticsearch query (`q='path:' + json.dumps(path)`) is embedded as the
spec's `findByExactField` capability: an exact-match point lookup on the
`path` field. -/
def ids_with_path (s : ES) (path : String) : List Nat :=
  (s.records.filter (fun r => r.path == path)).map Record.id

/-- The records whose `path` field equals the given path: what a lookup of
the index by path returns. -/
def records_with_path (s : ES) (path : String) : List Record :=
  s.records.filter (fun r => r.path == path)

/-- `paths_at_location` from server.py: the offset/limit page query of the
index (`es.search(from_=offset, size=limit, _source='path')`), returning the
`path` fields of up to `limit` records starting at `offset` in the index's
native order. -/
def paths_at_location (s : ES) (offset limit : Nat) : List String :=
  ((s.records.map Record.path).drop offset).take limit

/-- `count_images` from server.py: the number of records in the index. -/
def count_images (s : ES) : Nat :=
  s.records.length

/-- `delete_ids` from server.py: deletes each given id from the index,
ignoring ids that are absent (`ignore=404`). -/
def delete_ids (s : ES) (ids : List Nat) : ES :=
  { s with records := s.records.filter (fun r => !(ids.contains r.id)) }

/-- `ses.add_image` from server.py (the index-insert capability): computes
the signature of the image and inserts a new record with the given path and
metadata; the index assigns the record a fresh id. -/
def add_image (s : ES) (path : String) (sig : Nat) (md : String) : ES :=
  { records := s.records ++ [⟨s.nextId, path, sig, md⟩], nextId := s.nextId + 1 }

/-- `dist_to_percent` from server.py: maps a distance to a percent score. -/
def dist_to_percent (dist : ℚ) : ℚ :=
  (1 - dist) * 100

/-- `dist_from_percent` from server.py: maps a percent score back to a
distance cutoff. -/
def dist_from_percent (percent : ℚ) : ℚ :=
  1 - percent / 100

/-- Python truthiness of the optional `filepath` form field: `not path` is
true when the field is absent or the empty string. -/
def truthy : Option String → Bool
  | none => false
  | some s => s ≠ ""

/-- The effective path an add uses: the `filepath` form field when it is
present and non-empty, otherwise the image reference itself (the URL). -/
def effPath (img : String) (filepath : Option String) : String :=
  if truthy filepath then filepath.getD "" else img

/-- Outcome of a handler run: the error raised (if any), the final index
state, and the trace of index effects in the order they were issued. -/
structure HandlerOut where
  error : Option String
  state : ES
  trace : List Effect
deriving Repr, DecidableEq

/-- Traced `ids_with_path`: the id query together with its effect. -/
def ids_with_path_t (s : ES) (path : String) : List Nat × ES × List Effect :=
  (ids_with_path s path, s, [Effect.search path])

/-- Traced `ses.add_image`: the insert together with its effect. -/
def add_image_t (s : ES) (path : String) (sig : Nat) (md : String) :
    ES × List Effect :=
  (add_image s path sig md, [Effect.insert s.nextId path sig md])

/-- Traced `delete_ids`: the deletes together with their effects, one per
id, in order. -/
def delete_ids_t (s : ES) (ids : List Nat) : ES × List Effect :=
  (delete_ids s ids, ids.map Effect.delete)

/-- `add_handler` from server.py, after request decoding: `img` is the image
reference or payload, `bs` tells whether it is a raw byte payload
(`get_image` returned the uploaded file), `filepath` the optional form
field, `gensig` the Signature Engine, `md` the metadata. It raises
`ValueError` when raw bytes come with no usable filepath; otherwise it
captures the ids of existing records with the same path, inserts the new
record, and then deletes the captured ids. -/
def add_handler (gensig : String → Bool → Nat) (s : ES) (img : String)
    (bs : Bool) (filepath : Option String) (md : String) : HandlerOut :=
  if !truthy filepath && bs then
    { error := some "filepath must be provided if image is passed as \"image\"",
      state := s, trace := [] }
  else
    let path := effPath img filepath
    let (old_ids, s0, t0) := ids_with_path_t s path
    let (s1, t1) := add_image_t s0 path (gensig img bs) md
    let (s2, t2) := delete_ids_t s1 old_ids
    { error := none, state := s2, trace := t0 ++ t1 ++ t2 }

/-- The index-state effect of one successful add for a path: capture the old
ids, insert the new record, delete the captured ids (lines 100-102 of
server.py). -/
def add_op (s : ES) (path : String) (sig : Nat) (md : String) : ES :=
  delete_ids (add_image s path sig md) (ids_with_path s path)

/-- A sequence of adds for one path, each supplying a signature and
metadata. -/
def run_adds (s : ES) (path : String) (ops : List (Nat × String)) : ES :=
  ops.foldl (fun t op => add_op t path op.1 op.2) s

/-- `delete_handler` from server.py, after request decoding: looks up the
ids with the given path, deletes them, and reports success. -/
def delete_handler (s : ES) (path : String) : HandlerOut :=
  let (ids, s0, t0) := ids_with_path_t s path
  let (s1, t1) := delete_ids_t s0 ids
  { error := none, state := s1, trace := t0 ++ t1 }

/-- The orientation flag of `search_handler`: the `all_orientations` form
field, defaulting to the process-wide `ALL_ORIENTATIONS` string, compared
for equality with the string "true". -/
def orientation_flag (form_val : Option String) (env_val : String) : Bool :=
  (form_val.getD env_val) == "true"

/-- The result set of `search_handler` for a fixed probe and index state:
the records the index returns under the distance cutoff
`dist_from_percent min_score`, where `dist` gives each record's distance to
the probe signature (after any orientation expansion). -/
def search_results (s : ES) (dist : Record → ℚ) (min_score : ℚ) : List Record :=
  s.records.filter (fun r => dist r < dist_from_percent min_score)

/-- The clamped pagination parameters of `list_handler`: offset and limit
from the request (already parsed as integers), defaulting to 0 and 20, each
clamped below by 0 via `max`. -/
def list_params (offset_arg limit_arg : Option Int) : Int × Int :=
  (max (offset_arg.getD 0) 0, max (limit_arg.getD 20) 0)

/-- `list_handler` from server.py, after request decoding: clamps the
pagination parameters and passes them to the index page query. -/
def list_handler (s : ES) (offset_arg limit_arg : Option Int) : List String :=
  paths_at_location s (list_params offset_arg limit_arg).1.toNat
    (list_params offset_arg limit_arg).2.toNat

/-- Well-formedness of the index state: every stored record's id was
assigned before the current fresh id. Every state reachable from the empty
index satisfies it. -/
def WF (s : ES) : Prop :=
  ∀ r ∈ s.records, r.id < s.nextId

/-- C4: for every distance d in [0,1], converting d to a percent score via
`dist_to_percent` and back via `dist_from_percent` yields d again (exactly,
in rational arithmetic). -/
theorem dist_conversion_roundtrip (d : ℚ) (h0 : 0 ≤ d) (h1 : d ≤ 1) :
    dist_from_percent (dist_to_percent d) = d := by
  unfold dist_from_percent dist_to_percent
  ring

theorem dist_conversion_roundtrip_witness :
    (0 : ℚ) ≤ 3/10 ∧ (3/10 : ℚ) ≤ 1 ∧
      dist_from_percent (dist_to_percent (3/10)) = 3/10 :=
  ⟨by norm_num, by norm_num,
    dist_conversion_roundtrip (3/10) (by norm_num) (by norm_num)⟩

/-- C5: the search operation translates a minScorePercent of exactly 100 to
a distance cutoff of exactly 0, and every minScorePercent ≤ 0 to a distance
cutoff ≥ 1. -/
theorem search_cutoff_edges (p : ℚ) (hp : p ≤ 0) :
    dist_from_percent 100 = 0 ∧ 1 ≤ dist_from_percent p := by
  unfold dist_from_percent
  constructor
  · norm_num
  · linarith

theorem search_cutoff_edges_witness :
    dist_from_percent 100 = 0 ∧ 1 ≤ dist_from_percent (-5) :=
  search_cutoff_edges (-5) (by norm_num)

/-- C9: the list operation's offset and limit default to 0 and 20, are
clamped to be non-negative, pass any non-negative value through unchanged
(no upper bound on limit), and are handed to the index page query in that
clamped form. -/
theorem list_params_clamped (s : ES) (o l : Option Int) (n m : Nat) :
    0 ≤ (list_params o l).1 ∧ 0 ≤ (list_params o l).2 ∧
    list_params none none = (0, 20) ∧
    list_params (some (n : Int)) (some (m : Int)) = ((n : Int), (m : Int)) ∧
    list_handler s o l =
      paths_at_location s (list_params o l).1.toNat (list_params o l).2.toNat := by
  refine ⟨le_max_right _ _, le_max_right _ _, rfl, ?_, rfl⟩
  unfold list_params
  simp [max_eq_left (Int.natCast_nonneg n), max_eq_left (Int.natCast_nonneg m)]

/-- C10: orientation expansion is enabled iff the effective all_orientations
string (the form field, else the process-wide configuration) is exactly
"true"; "True", "TRUE" and "1" all disable it. -/
theorem orientation_flag_exact_true (f : Option String) (e : String) :
    (orientation_flag f e = true ↔ f.getD e = "true") ∧
    orientation_flag (some "True") e = false ∧
    orientation_flag (some "TRUE") e = false ∧
    orientation_flag (some "1") e = false ∧
    orientation_flag none "True" = false := by
  refine ⟨?_, ?_, ?_, ?_, ?_⟩ <;> simp [orientation_flag]

/-- C3: an add with raw image bytes and no filepath form field fails with
the invalid-input error and performs no index mutation: the state is
unchanged and the effect trace is empty. -/
theorem add_raw_bytes_no_path_fails (g : String → Bool → Nat) (s : ES)
    (img : String) (md : String) :
    (add_handler g s img true none md).error =
        some "filepath must be provided if image is passed as \"image\"" ∧
    (add_handler g s img true none md).state = s ∧
    (add_handler g s img true none md).trace = [] :=
  ⟨rfl, rfl, rfl⟩

/-- C2: a successful add issues its index effects in the fixed order:
capture the ids of records with the same path, then insert the new record,
and only after the insert delete the captured ids — the trace is exactly
the search, then the insert, then the deletes of the captured ids. -/
theorem add_insert_before_retire (g : String → Bool → Nat) (s : ES)
    (img : String) (bs : Bool) (fp : Option String) (md : String)
    (h : truthy fp = true ∨ bs = false) :
    (add_handler g s img bs fp md).trace =
      Effect.search (effPath img fp)
        :: Effect.insert s.nextId (effPath img fp) (g img bs) md
        :: (ids_with_path s (effPath img fp)).map Effect.delete := by
  unfold add_handler ids_with_path_t add_image_t delete_ids_t
  rcases h with h | h <;> simp [h]

theorem add_insert_before_retire_witness :
    (truthy (some "a.jpg") = true ∨ false = false) ∧
    (add_handler (fun _ _ => 7) ⟨[⟨0, "a.jpg", 3, "m0"⟩], 1⟩ "u" false
        (some "a.jpg") "m1").trace =
      Effect.search (effPath "u" (some "a.jpg"))
        :: Effect.insert 1 (effPath "u" (some "a.jpg")) 7 "m1"
        :: (ids_with_path ⟨[⟨0, "a.jpg", 3, "m0"⟩], 1⟩
              (effPath "u" (some "a.jpg"))).map Effect.delete :=
  ⟨Or.inl rfl,
    add_insert_before_retire (fun _ _ => 7) ⟨[⟨0, "a.jpg", 3, "m0"⟩], 1⟩ "u"
      false (some "a.jpg") "m1" (Or.inl rfl)⟩

/-- Membership in `ids_with_path`: exactly the ids of the records whose
`path` field equals the given path. -/
theorem mem_ids_with_path {s : ES} {p : String} {i : Nat} :
    i ∈ ids_with_path s p ↔ ∃ r, r ∈ s.records ∧ r.path = p ∧ r.id = i := by
  unfold ids_with_path
  simp only [List.mem_map, List.mem_filter, beq_iff_eq]
  constructor
  · rintro ⟨r, ⟨hr, hp⟩, hi⟩
    exact ⟨r, hr, hp, hi⟩
  · rintro ⟨r, hr, hp, hi⟩
    exact ⟨r, ⟨hr, hp⟩, hi⟩

/-- A record of the index whose path is `p` never survives the filter that
also requires its id to be absent from `ids_with_path s p`. -/
theorem filter_old_path_nil (s : ES) (p : String) :
    s.records.filter
        (fun a => (a.path == p) && !((ids_with_path s p).contains a.id)) = [] := by
  apply List.filter_eq_nil_iff.mpr
  intro r hr
  simp only [Bool.and_eq_true, beq_iff_eq, Bool.not_eq_true', not_and]
  intro hp
  have hmem : r.id ∈ ids_with_path s p := mem_ids_with_path.mpr ⟨r, hr, hp, rfl⟩
  simp only [Bool.not_eq_false]
  simp
  exact hmem

/-- Deleting the empty id list leaves the index unchanged. -/
theorem delete_ids_nil (u : ES) : delete_ids u [] = u := by
  unfold delete_ids
  simp

/-- After deleting all ids found for a path, the by-path id lookup for that
path is empty. -/
theorem ids_with_path_after_delete (s : ES) (p : String) :
    ids_with_path (delete_ids s (ids_with_path s p)) p = [] := by
  have h := filter_old_path_nil s p
  unfold ids_with_path at h ⊢
  unfold delete_ids
  simp only [List.filter_filter]
  rw [h]
  rfl

/-- C6: `ids_with_path` is an exact-match point lookup: it returns exactly
the ids of the records whose `path` field equals the given value, and the
empty sequence when no record has that path. -/
theorem ids_with_path_point_lookup (s t : ES) (p q : String) (i : Nat)
    (h : records_with_path t q = []) :
    (i ∈ ids_with_path s p ↔ ∃ r, r ∈ s.records ∧ r.path = p ∧ r.id = i) ∧
    ids_with_path t q = [] := by
  refine ⟨mem_ids_with_path, ?_⟩
  unfold ids_with_path
  unfold records_with_path at h
  rw [h]
  rfl

theorem ids_with_path_point_lookup_witness :
    records_with_path ⟨[], 0⟩ "b" = [] ∧
    ((0 ∈ ids_with_path ⟨[⟨0, "a", 5, "m"⟩], 1⟩ "a" ↔
        ∃ r, r ∈ (⟨[⟨0, "a", 5, "m"⟩], 1⟩ : ES).records ∧ r.path = "a" ∧ r.id = 0) ∧
      ids_with_path ⟨[], 0⟩ "b" = []) :=
  ⟨rfl, ids_with_path_point_lookup ⟨[⟨0, "a", 5, "m"⟩], 1⟩ ⟨[], 0⟩ "a" "b" 0 rfl⟩

/-- C7: for a fixed probe and index state, raising minScorePercent never
increases the number of search results: the cutoff shrinks, so the filtered
result list can only get shorter. -/
theorem search_cutoff_monotone (s : ES) (dist : Record → ℚ) (p1 p2 : ℚ)
    (h : p1 ≤ p2) :
    (search_results s dist p2).length ≤ (search_results s dist p1).length := by
  unfold search_results
  apply List.Sublist.length_le
  apply List.monotone_filter_right
  intro r hr
  simp only [decide_eq_true_eq] at hr ⊢
  have hc : dist_from_percent p2 ≤ dist_from_percent p1 := by
    unfold dist_from_percent
    linarith
  exact lt_of_lt_of_le hr hc

theorem search_cutoff_monotone_witness :
    (40 : ℚ) ≤ 90 ∧
    (search_results ⟨[⟨0, "a", 5, "m"⟩], 1⟩ (fun _ => 1/2) 90).length ≤
      (search_results ⟨[⟨0, "a", 5, "m"⟩], 1⟩ (fun _ => 1/2) 40).length :=
  ⟨by norm_num,
    search_cutoff_monotone ⟨[⟨0, "a", 5, "m"⟩], 1⟩ (fun _ => 1/2) 40 90
      (by norm_num)⟩

/-- C8: delete is idempotent and total: it always reports success, deleting
the same path twice leaves the state of the first delete unchanged, and a
delete of a path with no records is a successful no-op. -/
theorem delete_idempotent (s t : ES) (p q : String)
    (h : records_with_path t q = []) :
    (delete_handler s p).error = none ∧
    (delete_handler (delete_handler s p).state p).error = none ∧
    (delete_handler (delete_handler s p).state p).state =
      (delete_handler s p).state ∧
    (delete_handler t q).error = none ∧
    (delete_handler t q).state = t := by
  have hids : ids_with_path t q = [] := by
    unfold ids_with_path
    unfold records_with_path at h
    rw [h]
    rfl
  refine ⟨rfl, rfl, ?_, rfl, ?_⟩
  · show delete_ids (delete_ids s (ids_with_path s p))
        (ids_with_path (delete_ids s (ids_with_path s p)) p) =
      delete_ids s (ids_with_path s p)
    rw [ids_with_path_after_delete, delete_ids_nil]
  · show delete_ids t (ids_with_path t q) = t
    rw [hids, delete_ids_nil]

theorem delete_idempotent_witness :
    records_with_path ⟨[], 5⟩ "q" = [] ∧
    ((delete_handler ⟨[⟨0, "a", 5, "m"⟩], 1⟩ "a").error = none ∧
     (delete_handler (delete_handler ⟨[⟨0, "a", 5, "m"⟩], 1⟩ "a").state "a").error
        = none ∧
     (delete_handler (delete_handler ⟨[⟨0, "a", 5, "m"⟩], 1⟩ "a").state "a").state
        = (delete_handler ⟨[⟨0, "a", 5, "m"⟩], 1⟩ "a").state ∧
     (delete_handler ⟨[], 5⟩ "q").error = none ∧
     (delete_handler ⟨[], 5⟩ "q").state = ⟨[], 5⟩) :=
  ⟨rfl, delete_idempotent ⟨[⟨0, "a", 5, "m"⟩], 1⟩ ⟨[], 5⟩ "a" "q" rfl⟩

/-- Well-formedness of the index state: every stored record carries an id
the index assigned before the current fresh id. It holds for the empty
index and is preserved by every operation. -/
def wf (s : ES) : Bool :=
  s.records.all (fun r => r.id < s.nextId)

/-- Unfolding of `wf` into its membership statement. -/
theorem wf_spec {s : ES} (h : wf s = true) : ∀ r ∈ s.records, r.id < s.nextId := by
  intro r hr
  have := List.all_eq_true.mp h r hr
  simpa using this

/-- In a well-formed state the fresh id is not among the ids any by-path
lookup returns. -/
theorem nextId_not_contained {s : ES} (h : wf s = true) (p : String) :
    s.nextId ∉ ids_with_path s p := by
  intro hmem
  obtain ⟨r, hr, _, hi⟩ := mem_ids_with_path.mp hmem
  have := wf_spec h r hr
  omega

/-- One successful add in a well-formed state leaves exactly one record with
the added path: the newly inserted one. -/
theorem records_with_path_add_op (s : ES) (p : String) (sig : Nat)
    (md : String) (h : wf s = true) :
    records_with_path (add_op s p sig md) p = [⟨s.nextId, p, sig, md⟩] := by
  have hnew := nextId_not_contained h p
  unfold records_with_path add_op delete_ids add_image
  simp only [List.filter_filter, List.filter_append]
  rw [filter_old_path_nil s p]
  simp [hnew]

/-- `add_op` preserves well-formedness of the index state. -/
theorem wf_add_op (s : ES) (p : String) (sig : Nat) (md : String)
    (h : wf s = true) : wf (add_op s p sig md) = true := by
  have hs := wf_spec h
  unfold wf add_op delete_ids add_image
  simp only [List.all_eq_true]
  intro r hr
  have hr2 : r ∈ s.records ++ [⟨s.nextId, p, sig, md⟩] :=
    List.mem_of_mem_filter hr
  rcases List.mem_append.mp hr2 with h1 | h1
  · have := hs r h1
    simp only [decide_eq_true_eq]
    omega
  · simp only [List.mem_singleton] at h1
    subst h1
    simp

/-- C1: starting from a well-formed index, after a sequence of adds for a
path P (with no concurrent writer), the lookup by P returns exactly one
record, and it carries the signature and metadata of the most recent add. -/
theorem path_uniqueness_after_adds (s : ES) (p : String)
    (ops : List (Nat × String)) (last : Nat × String)
    (hwf : wf s = true) (hlast : ops.getLast? = some last) :
    (records_with_path (run_adds s p ops) p).map
        (fun r => (r.signature, r.metadata)) = [last] := by
  revert hwf hlast
  induction ops generalizing s with
  | nil =>
    intro hwf hlast
    simp at hlast
  | cons op rest ih =>
    intro hwf hlast
    cases rest with
    | nil =>
      simp only [List.getLast?_singleton, Option.some.injEq] at hlast
      subst hlast
      show (records_with_path (run_adds s p [op]) p).map
          (fun r => (r.signature, r.metadata)) = [op]
      unfold run_adds
      simp only [List.foldl_cons, List.foldl_nil]
      rw [records_with_path_add_op s p op.1 op.2 hwf]
      rfl
    | cons op2 rest2 =>
      rw [List.getLast?_cons_cons] at hlast
      have hstep : run_adds s p (op :: op2 :: rest2)
          = run_adds (add_op s p op.1 op.2) p (op2 :: rest2) := rfl
      rw [hstep]
      exact ih (add_op s p op.1 op.2) (wf_add_op s p op.1 op.2 hwf) hlast

theorem path_uniqueness_after_adds_witness :
    wf ⟨[], 0⟩ = true ∧
    ([((1 : Nat), "m1"), (2, "m2")].getLast? = some (2, "m2")) ∧
    (records_with_path (run_adds ⟨[], 0⟩ "a" [(1, "m1"), (2, "m2")]) "a").map
        (fun r => (r.signature, r.metadata)) = [(2, "m2")] :=
  ⟨rfl, rfl,
    path_uniqueness_after_adds ⟨[], 0⟩ "a" [(1, "m1"), (2, "m2")] (2, "m2")
      rfl rfl⟩
